import Mathlib

/-!
Verification of the feature-matching core of colmap (src/feature/sift.cc).

The development shallowly embeds the matching core:

* descriptors are rows of 128 unsigned bytes (Fin 128 → Fin 256), as in the
  C++ type FeatureDescriptors (Eigen matrix of uint8_t, 128 columns);
* TransformVLFeatToUBCFeatureDescriptors is the per-cell byte reordering;
* ComputeSiftDistanceMatrix builds the integer dot-product matrix with an
  optional guided filter (the C++ std::function taking four floats; keypoint
  coordinates and the geometric predicates are embedded over the rationals,
  standing for the exact-arithmetic reading of the float code);
* FindBestMatchesOneWay is split into its computable integer scan (best and
  second-best tracking) and the real-valued acos gates, which are stated as
  propositions over the reals because the C++ evaluates them in floating
  point;
* FindBestMatches (bidirectional matching with optional cross-check) and
  MatchGuidedSiftFeaturesCPU are embedded as input and output relations.
-/

namespace ColmapSift

/-- A quantized SIFT descriptor: 128 entries, each an unsigned byte. -/
abbrev FeatureDescriptor := Fin 128 → Fin 256

/-- The fixed 8-entry permutation used by
TransformVLFeatToUBCFeatureDescriptors, the C++ array
q = \x7b0, 7, 6, 5, 4, 3, 2, 1\x7d. -/
def qPerm : Fin 8 → Fin 8 := ![0, 7, 6, 5, 4, 3, 2, 1]

/-- Flat descriptor index of bin k of cell c in the 128-dimensional layout,
the C++ index expression 8 * (j + 4 * i) + k with c = j + 4 * i. -/
def cellBinIndex (c : Fin 16) (k : Fin 8) : Fin 128 :=
  ⟨8 * c.val + k.val, by
    have hc := c.isLt
    have hk := k.isLt
    omega⟩

/-- The index permutation on Fin 128 realized by the reordering loop: output
position m reads input position 8 * (m / 8) + qPerm (m % 8).  The loop writes
ubc(8c + qPerm k) = vl(8c + k) for every cell c and bin k, and qPerm is a
bijection, so this pointwise reading realizes exactly the loop assignments
(lemma transform_cell_bin below re-states the loop body verbatim). -/
def ubcSourceIndex (m : Fin 128) : Fin 128 :=
  ⟨8 * (m.val / 8) + (qPerm ⟨m.val % 8, Nat.mod_lt _ (by norm_num)⟩).val, by
    have h1 := m.isLt
    have h2 := (qPerm ⟨m.val % 8, Nat.mod_lt _ (by norm_num)⟩).isLt
    omega⟩

/-- Embedding of TransformVLFeatToUBCFeatureDescriptors on one descriptor
row (the C++ function applies it independently to every row). -/
def TransformVLFeatToUBCFeatureDescriptors (d : FeatureDescriptor) :
    FeatureDescriptor :=
  fun m => d (ubcSourceIndex m)

/-- The definition realizes the C++ loop body: for every cell c and bin k,
ubc(8c + q k) = vl(8c + k). -/
theorem transform_cell_bin (d : FeatureDescriptor) (c : Fin 16) (k : Fin 8) :
    TransformVLFeatToUBCFeatureDescriptors d (cellBinIndex c (qPerm k)) =
      d (cellBinIndex c k) := by
  have h : ∀ (c : Fin 16) (k : Fin 8),
      ubcSourceIndex (cellBinIndex c (qPerm k)) = cellBinIndex c k := by decide
  unfold TransformVLFeatToUBCFeatureDescriptors
  rw [h]

/-- The index permutation is an involution. -/
theorem ubcSourceIndex_involutive (m : Fin 128) :
    ubcSourceIndex (ubcSourceIndex m) = m := by
  revert m; decide

/-- Integer dot product of two quantized descriptors, as computed by
descriptors1_int.row(i1).dot(descriptors2_int.row(i2)) after the uint8 → int
cast in ComputeSiftDistanceMatrix. -/
def siftDescriptorDot (d1 d2 : FeatureDescriptor) : ℕ :=
  ∑ k : Fin 128, (d1 k).val * (d2 k).val

/-- Squared L2 norm of a quantized descriptor. -/
def siftDescriptorSqNorm (d : FeatureDescriptor) : ℕ :=
  ∑ k : Fin 128, (d k).val * (d k).val

/-- A feature keypoint, reduced to the fields the matching core reads:
its pixel position.  Coordinates are embedded as rationals (exact reading
of the C++ float values). -/
structure FeatureKeypoint where
  x : ℚ
  y : ℚ
deriving DecidableEq

instance : Inhabited FeatureKeypoint := ⟨⟨0, 0⟩⟩

instance : Inhabited FeatureDescriptor := ⟨fun _ => 0⟩

/-- The guided-filter predicate type, the C++
std::function(bool(float, float, float, float)). -/
abbrev GuidedFilter := ℚ → ℚ → ℚ → ℚ → Bool

/-- Embedding of ComputeSiftDistanceMatrix.  The result is the dense
row-major integer matrix dists with descriptors1.rows() rows and
descriptors2.rows() columns; cell (i1, i2) is 0 when the optional guided
filter accepts (returns true on) the keypoint positions of the pair, and
otherwise the integer dot product of the quantized descriptors.  Keypoint
access mirrors (*keypoints1)[i1]; the C++ CHECKs guarantee in-range access,
here out-of-range access yields the default keypoint. -/
def ComputeSiftDistanceMatrix (keypoints1 keypoints2 : List FeatureKeypoint)
    (descriptors1 descriptors2 : List FeatureDescriptor)
    (guided_filter : Option GuidedFilter) : List (List ℤ) :=
  (List.range descriptors1.length).map fun i1 =>
    (List.range descriptors2.length).map fun i2 =>
      match guided_filter with
      | some f =>
          if f (keypoints1.getD i1 default).x (keypoints1.getD i1 default).y
              (keypoints2.getD i2 default).x (keypoints2.getD i2 default).y then
            (0 : ℤ)
          else
            (siftDescriptorDot (descriptors1.getD i1 default)
              (descriptors2.getD i2 default) : ℤ)
      | none =>
          (siftDescriptorDot (descriptors1.getD i1 default)
            (descriptors2.getD i2 default) : ℤ)

/-- Entry (i, j) of a matrix stored as a list of rows (0 outside range). -/
def entryAt (m : List (List ℤ)) (i j : ℕ) : ℤ :=
  (m.getD i []).getD j 0

/-- State of the per-row scan in FindBestMatchesOneWay: the C++ locals
best_i2, best_dist and second_best_dist. -/
structure ScanState where
  bestI2 : ℤ
  bestDist : ℤ
  secondDist : ℤ
deriving DecidableEq, Repr

/-- One iteration of the inner column loop of FindBestMatchesOneWay. -/
def scanStep (row : ℕ → ℤ) (s : ScanState) (i2 : ℕ) : ScanState :=
  let dist := row i2
  if dist > s.bestDist then ⟨(i2 : ℤ), dist, s.bestDist⟩
  else if dist > s.secondDist then ⟨s.bestI2, s.bestDist, dist⟩
  else s

/-- The full column scan of row i1 in FindBestMatchesOneWay: fold the
column loop over columns 0, 1, ..., cols - 1 starting from
best_i2 = -1, best_dist = 0, second_best_dist = 0. -/
def rowScan (row : ℕ → ℤ) (cols : ℕ) : ScanState :=
  (List.range cols).foldl (scanStep row) ⟨-1, 0, 0⟩

/-- The constant kDistNorm = 1.0f / (512.0f * 512.0f). -/
noncomputable def kDistNorm : ℝ := 1 / (512 * 512)

/-- The normalized angular distance computed by FindBestMatchesOneWay:
acos(min(kDistNorm * dist, 1.0f)), over the reals. -/
noncomputable def distNormed (dist : ℤ) : ℝ :=
  Real.arccos (min (kDistNorm * (dist : ℝ)) 1)

/-- The acceptance condition of row i1 in FindBestMatchesOneWay: a best
match exists (best_i2 not -1), the best normalized distance does not exceed
max_distance, and the ratio gate best >= max_ratio * second does not fire.
This is exactly the complement of the three continue statements. -/
def RowAccepted (row : ℕ → ℤ) (cols : ℕ) (max_ratio max_distance : ℝ) : Prop :=
  (rowScan row cols).bestI2 ≠ -1 ∧
  ¬ (distNormed (rowScan row cols).bestDist > max_distance) ∧
  ¬ (distNormed (rowScan row cols).bestDist ≥
      max_ratio * distNormed (rowScan row cols).secondDist)

/-- FindBestMatchesOneWay assigns column i2 to row i1: the row is accepted
and its best column is i2. -/
def OneWaySel (d : ℕ → ℕ → ℤ) (cols : ℕ) (max_ratio max_distance : ℝ)
    (i1 i2 : ℕ) : Prop :=
  RowAccepted (d i1) cols max_ratio max_distance ∧
  (rowScan (d i1) cols).bestI2 = (i2 : ℤ)

/-- Value stored at index i1 of the matches vector produced by
FindBestMatchesOneWay: best_i2 when the row passes all gates, the
sentinel -1 otherwise. -/
def FindBestMatchesOneWayEntry (d : ℕ → ℕ → ℤ) (cols : ℕ)
    (max_ratio max_distance : ℝ) (i1 : ℕ) (v : ℤ) : Prop :=
  (RowAccepted (d i1) cols max_ratio max_distance ∧
    v = (rowScan (d i1) cols).bestI2) ∨
  (¬ RowAccepted (d i1) cols max_ratio max_distance ∧ v = -1)

/-- The pair (i1, i2) is emitted by FindBestMatches.  With cross_check, the
emission condition of the C++ loop is
matches12[i1] != -1 and matches21[matches12[i1]] != -1 and
matches21[matches12[i1]] == i1, the emitted pair being
(i1, matches12[i1]); matches21 comes from running FindBestMatchesOneWay on
the transposed matrix (rows of the transpose range over the cols columns of
d, each scanned over the rows rows of d).  Without cross_check the
condition is matches12[i1] != -1 alone. -/
def FindBestMatchesEmits (d : ℕ → ℕ → ℤ) (rows cols : ℕ)
    (max_ratio max_distance : ℝ) (cross_check : Bool) (i1 i2 : ℕ) : Prop :=
  i1 < rows ∧
  match cross_check with
  | true =>
      ∃ v, FindBestMatchesOneWayEntry d cols max_ratio max_distance i1 v ∧
        v ≠ -1 ∧
        ∃ w, FindBestMatchesOneWayEntry (fun a b => d b a) rows max_ratio
            max_distance v.toNat w ∧
          w ≠ -1 ∧ w = (i1 : ℤ) ∧ (i2 : ℤ) = v
  | false =>
      ∃ v, FindBestMatchesOneWayEntry d cols max_ratio max_distance i1 v ∧
        v ≠ -1 ∧ (i2 : ℤ) = v

/-- A 3-vector over the rationals (exact reading of Eigen::Vector3f). -/
structure Vec3 where
  x : ℚ
  y : ℚ
  z : ℚ
deriving DecidableEq

/-- A 3x3 matrix over the rationals (exact reading of Eigen::Matrix3f). -/
structure Mat3 where
  m00 : ℚ
  m01 : ℚ
  m02 : ℚ
  m10 : ℚ
  m11 : ℚ
  m12 : ℚ
  m20 : ℚ
  m21 : ℚ
  m22 : ℚ
deriving DecidableEq

/-- Matrix-vector product. -/
def mat3MulVec (A : Mat3) (v : Vec3) : Vec3 :=
  ⟨A.m00 * v.x + A.m01 * v.y + A.m02 * v.z,
   A.m10 * v.x + A.m11 * v.y + A.m12 * v.z,
   A.m20 * v.x + A.m21 * v.y + A.m22 * v.z⟩

/-- Matrix transpose. -/
def mat3T (A : Mat3) : Mat3 :=
  ⟨A.m00, A.m10, A.m20, A.m01, A.m11, A.m21, A.m02, A.m12, A.m22⟩

/-- Dot product of 3-vectors. -/
def vec3Dot (a b : Vec3) : ℚ :=
  a.x * b.x + a.y * b.y + a.z * b.z

/-- The epipolar guided filter built by MatchGuidedSiftFeaturesCPU for the
CALIBRATED and UNCALIBRATED classifications, with max_residual =
max_error * max_error precomputed by the caller. -/
def guidedFilterEpipolar (F : Mat3) (max_residual : ℚ) : GuidedFilter :=
  fun x1 y1 x2 y2 =>
    let p1 : Vec3 := ⟨x1, y1, 1⟩
    let p2 : Vec3 := ⟨x2, y2, 1⟩
    let Fx1 := mat3MulVec F p1
    let Ftx2 := mat3MulVec (mat3T F) p2
    let x2tFx1 := vec3Dot p2 Fx1
    decide (x2tFx1 * x2tFx1 /
        (Fx1.x * Fx1.x + Fx1.y * Fx1.y + Ftx2.x * Ftx2.x + Ftx2.y * Ftx2.y) >
      max_residual)

/-- The homography guided filter built by MatchGuidedSiftFeaturesCPU for the
PLANAR, PANORAMIC and PLANAR_OR_PANORAMIC classifications: squared Euclidean
distance between the dehomogenized H * p1 and p2, compared to
max_residual. -/
def guidedFilterHomography (H : Mat3) (max_residual : ℚ) : GuidedFilter :=
  fun x1 y1 x2 y2 =>
    let p1 : Vec3 := ⟨x1, y1, 1⟩
    let Hp1 := mat3MulVec H p1
    decide ((Hp1.x / Hp1.z - x2) * (Hp1.x / Hp1.z - x2) +
        (Hp1.y / Hp1.z - y2) * (Hp1.y / Hp1.z - y2) > max_residual)

/-- Modelled from the spec: the epipolar residual written out in scalar
form, following the specification sentence listing num and denom for
homogeneous points p1 = (x1, y1, 1) and p2 = (x2, y2, 1).  This definition
is the specification side of the refinement claim about the epipolar
predicate; it is written from the words of the spec, not from the code. -/
def epipolarResidualSpec (F : Mat3) (x1 y1 x2 y2 : ℚ) : ℚ :=
  let fx := F.m00 * x1 + F.m01 * y1 + F.m02
  let fy := F.m10 * x1 + F.m11 * y1 + F.m12
  let fz := F.m20 * x1 + F.m21 * y1 + F.m22
  let ftx := F.m00 * x2 + F.m10 * y2 + F.m20
  let fty := F.m01 * x2 + F.m11 * y2 + F.m21
  (x2 * fx + y2 * fy + fz) ^ 2 / (fx ^ 2 + fy ^ 2 + ftx ^ 2 + fty ^ 2)

/-- Modelled from the spec: the classification tag of a two-view geometric
model.  The header defining the C++ enum is not part of the provided
source; the spec lists the tags calibrated epipolar, uncalibrated epipolar,
planar, panoramic, planar-or-panoramic, and none. -/
inductive TwoViewConfig where
  | calibrated
  | uncalibrated
  | planar
  | panoramic
  | planarOrPanoramic
  | noModel
deriving DecidableEq

/-- Modelled from the spec: a two-view geometric model together with the
guided (inlier) match list field that MatchGuidedSiftFeaturesCPU writes. -/
structure TwoViewGeometry where
  config : TwoViewConfig
  F : Mat3
  H : Mat3
  inlier_matches : List (ℕ × ℕ)
deriving DecidableEq

/-- m is a match list produced by FindBestMatches on the given matrix:
its members are exactly the emitted pairs (the emission order of the C++
output vector is abstracted away). -/
def IsMatchList (d : ℕ → ℕ → ℤ) (rows cols : ℕ) (max_ratio max_distance : ℝ)
    (cross_check : Bool) (m : List (ℕ × ℕ)) : Prop :=
  ∀ p : ℕ × ℕ,
    p ∈ m ↔ FindBestMatchesEmits d rows cols max_ratio max_distance
      cross_check p.1 p.2

/-- Input-output relation of MatchGuidedSiftFeaturesCPU: tvg is the
two-view geometry before the call and tvg2 after it.  For the epipolar
classifications the distance matrix is built with the epipolar filter and
the fundamental matrix, for the planar ones with the homography filter and
the homography, and the resulting match list overwrites inlier_matches; for
any other classification the function returns before matching and the
geometry is untouched.  max_residual stands for max_error * max_error. -/
def MatchGuidedSiftFeaturesCPUStep (max_ratio max_distance : ℝ)
    (max_residual : ℚ) (cross_check : Bool)
    (keypoints1 keypoints2 : List FeatureKeypoint)
    (descriptors1 descriptors2 : List FeatureDescriptor)
    (tvg tvg2 : TwoViewGeometry) : Prop :=
  match tvg.config with
  | .calibrated | .uncalibrated =>
      ∃ m, IsMatchList
          (entryAt (ComputeSiftDistanceMatrix keypoints1 keypoints2
            descriptors1 descriptors2
            (some (guidedFilterEpipolar tvg.F max_residual))))
          descriptors1.length descriptors2.length max_ratio max_distance
          cross_check m ∧
        tvg2 = { tvg with inlier_matches := m }
  | .planar | .panoramic | .planarOrPanoramic =>
      ∃ m, IsMatchList
          (entryAt (ComputeSiftDistanceMatrix keypoints1 keypoints2
            descriptors1 descriptors2
            (some (guidedFilterHomography tvg.H max_residual))))
          descriptors1.length descriptors2.length max_ratio max_distance
          cross_check m ∧
        tvg2 = { tvg with inlier_matches := m }
  | .noModel => tvg2 = tvg

/-! ### Helper lemmas about the column scan -/

theorem rowScan_succ (row : ℕ → ℤ) (n : ℕ) :
    rowScan row (n + 1) = scanStep row (rowScan row n) n := by
  unfold rowScan
  rw [List.range_succ, List.foldl_append]
  rfl

/-- Scan invariant: either no positive entry has been seen (sentinel state)
or the best column is a genuine in-range column holding the positive best
distance. -/
theorem rowScan_invariant (row : ℕ → ℤ) (n : ℕ) :
    ((rowScan row n).bestI2 = -1 ∧ (rowScan row n).bestDist = 0) ∨
    (∃ j, j < n ∧ (rowScan row n).bestI2 = (j : ℤ) ∧
      (rowScan row n).bestDist = row j ∧ 0 < row j) := by
  induction n with
  | zero => exact Or.inl ⟨rfl, rfl⟩
  | succ n ih =>
      rw [rowScan_succ]
      unfold scanStep
      rcases ih with ⟨h1, h2⟩ | ⟨j, hj, h1, h2, h3⟩
      · by_cases h : row n > (rowScan row n).bestDist
        · rw [if_pos h]
          exact Or.inr ⟨n, Nat.lt_succ_self n, rfl, rfl, by
            simpa [h2] using h⟩
        · rw [if_neg h]
          by_cases h' : row n > (rowScan row n).secondDist
          · rw [if_pos h']
            exact Or.inl ⟨h1, h2⟩
          · rw [if_neg h']
            exact Or.inl ⟨h1, h2⟩
      · by_cases h : row n > (rowScan row n).bestDist
        · rw [if_pos h]
          exact Or.inr ⟨n, Nat.lt_succ_self n, rfl, rfl, by
            have : (0 : ℤ) < (rowScan row n).bestDist := by rw [h2]; exact h3
            omega⟩
        · rw [if_neg h]
          by_cases h' : row n > (rowScan row n).secondDist
          · rw [if_pos h']
            exact Or.inr ⟨j, Nat.lt_succ_of_lt hj, h1, h2, h3⟩
          · rw [if_neg h']
            exact Or.inr ⟨j, Nat.lt_succ_of_lt hj, h1, h2, h3⟩

/-- The best distance tracked by the scan is never negative. -/
theorem rowScan_bestDist_nonneg (row : ℕ → ℤ) (n : ℕ) :
    0 ≤ (rowScan row n).bestDist := by
  rcases rowScan_invariant row n with ⟨_, h⟩ | ⟨j, _, _, h, hpos⟩
  · omega
  · rw [h]; omega

/-- A scan over columns that all hold 0 stays in the initial state. -/
theorem rowScan_all_zero (row : ℕ → ℤ) (n : ℕ) (h : ∀ k, k < n → row k = 0) :
    rowScan row n = ⟨-1, 0, 0⟩ := by
  induction n with
  | zero => rfl
  | succ n ih =>
      rw [rowScan_succ, ih (fun k hk => h k (Nat.lt_succ_of_lt hk))]
      simp [scanStep, h n (Nat.lt_succ_self n)]

/-- A column holding 0 leaves any scan state with nonnegative best and
second-best distances unchanged. -/
theorem scanStep_zero_noop (row : ℕ → ℤ) (n : ℕ) (s : ScanState)
    (h0 : row n = 0) (hb : 0 ≤ s.bestDist) (hs : 0 ≤ s.secondDist) :
    scanStep row s n = s := by
  simp only [scanStep]
  rw [h0, if_neg (by omega), if_neg (by omega)]

/-- Scan of a row whose only positive entry sits at column j with value V,
all other columns holding 0: the state after passing column j is exactly
best = (j, V), second = 0. -/
theorem rowScan_single_positive (row : ℕ → ℤ) (cols j : ℕ) (V : ℤ)
    (hj : j < cols) (hV : 0 < V) (hrow : row j = V)
    (hz : ∀ k, k < cols → k ≠ j → row k = 0) :
    rowScan row cols = ⟨(j : ℤ), V, 0⟩ := by
  have step : ∀ n, j < n → n ≤ cols → rowScan row n = ⟨(j : ℤ), V, 0⟩ := by
    intro n
    induction n with
    | zero => intro h _; omega
    | succ n ih =>
        intro hjn hn
        rcases Nat.lt_or_ge j n with hlt | hge
        · have hr : rowScan row n = ⟨(j : ℤ), V, 0⟩ :=
            ih hlt (Nat.le_of_succ_le hn)
          rw [rowScan_succ, hr]
          exact scanStep_zero_noop row n _ (hz n (by omega) (by omega))
            hV.le (le_refl 0)
        · have hjeq : j = n := by omega
          subst hjeq
          rw [rowScan_succ,
            rowScan_all_zero row j (fun k hk => hz k (by omega) (by omega))]
          simp only [scanStep]
          rw [hrow, if_pos]
          exact hV
  exact step cols hj (Nat.le_refl cols)

/-! ### Helper lemmas about the normalized distance -/

theorem arccos_min_one (x : ℝ) :
    Real.arccos (min x 1) = Real.arccos x := by
  rcases le_or_lt x 1 with h | h
  · rw [min_eq_left h]
  · rw [min_eq_right h.le, Real.arccos_one,
      Real.arccos_of_one_le h.le]

/-- The normalized distance in closed form: clamping before acos agrees
with the junk-value convention of Real.arccos above 1. -/
theorem distNormed_eq (dist : ℤ) :
    distNormed dist = Real.arccos ((dist : ℝ) / 262144) := by
  unfold distNormed kDistNorm
  rw [arccos_min_one]
  norm_num
  ring_nf

theorem distNormed_zero : distNormed 0 = Real.pi / 2 := by
  rw [distNormed_eq]
  norm_num

theorem distNormed_nonneg (dist : ℤ) : 0 ≤ distNormed dist :=
  Real.arccos_nonneg _

theorem distNormed_le_pi (dist : ℤ) : distNormed dist ≤ Real.pi :=
  Real.arccos_le_pi _

/-! ### Helper lemmas about the one-way matches vector -/

theorem oneWayEntry_functional (d : ℕ → ℕ → ℤ) (cols : ℕ)
    (max_ratio max_distance : ℝ) (i1 : ℕ) (v w : ℤ)
    (hv : FindBestMatchesOneWayEntry d cols max_ratio max_distance i1 v)
    (hw : FindBestMatchesOneWayEntry d cols max_ratio max_distance i1 w) :
    v = w := by
  rcases hv with ⟨_, hv⟩ | ⟨hnv, hv⟩ <;> rcases hw with ⟨hw1, hw⟩ | ⟨hnw, hw⟩
  · rw [hv, hw]
  · exact absurd ‹_› hnw
  · exact absurd hw1 hnv
  · rw [hv, hw]

theorem oneWayEntry_of_ne_sentinel (d : ℕ → ℕ → ℤ) (cols : ℕ)
    (max_ratio max_distance : ℝ) (i1 : ℕ) (v : ℤ)
    (hv : FindBestMatchesOneWayEntry d cols max_ratio max_distance i1 v)
    (hne : v ≠ -1) :
    RowAccepted (d i1) cols max_ratio max_distance ∧
      v = (rowScan (d i1) cols).bestI2 := by
  rcases hv with h | ⟨_, h⟩
  · exact h
  · exact absurd h hne

/-! ### Claim C2 -/

/-- C2: with cross-check enabled, FindBestMatches emits (i1, i2) exactly
when the forward one-way selector assigns i2 to row i1 and the backward
one-way selector (on the transposed matrix) assigns i1 to row i2; with
cross-check disabled it emits (i1, i2) exactly when the forward selector
assigns i2 to i1, and the emitted partner of a row is unique. -/
theorem C2_cross_check_characterization (d : ℕ → ℕ → ℤ) (rows cols : ℕ)
    (max_ratio max_distance : ℝ) (i1 i2 : ℕ) :
    (FindBestMatchesEmits d rows cols max_ratio max_distance true i1 i2 ↔
      (i1 < rows ∧ OneWaySel d cols max_ratio max_distance i1 i2 ∧
        OneWaySel (fun a b => d b a) rows max_ratio max_distance i2 i1)) ∧
    (FindBestMatchesEmits d rows cols max_ratio max_distance false i1 i2 ↔
      (i1 < rows ∧ OneWaySel d cols max_ratio max_distance i1 i2)) ∧
    (∀ j j' : ℕ,
      FindBestMatchesEmits d rows cols max_ratio max_distance false i1 j →
      FindBestMatchesEmits d rows cols max_ratio max_distance false i1 j' →
      j = j') := by
  refine ⟨⟨?_, ?_⟩, ⟨?_, ?_⟩, ?_⟩
  · rintro ⟨h1, v, hv, hvne, w, hw, hwne, hwi1, hi2v⟩
    obtain ⟨acc1, hv2⟩ := oneWayEntry_of_ne_sentinel _ _ _ _ _ _ hv hvne
    have hvt : v.toNat = i2 := by
      rw [← hi2v] at hv2 ⊢
      exact Int.toNat_natCast i2
    rw [hvt] at hw
    obtain ⟨acc2, hw2⟩ := oneWayEntry_of_ne_sentinel _ _ _ _ _ _ hw hwne
    refine ⟨h1, ⟨acc1, ?_⟩, ⟨acc2, ?_⟩⟩
    · rw [← hv2]
      exact hi2v.symm
    · rw [← hw2]
      exact hwi1
  · rintro ⟨h1, ⟨acc1, hb1⟩, ⟨acc2, hb2⟩⟩
    refine ⟨h1, (i2 : ℤ), Or.inl ⟨acc1, hb1.symm⟩, by omega, (i1 : ℤ), ?_,
      by omega, rfl, rfl⟩
    rw [Int.toNat_natCast]
    exact Or.inl ⟨acc2, hb2.symm⟩
  · rintro ⟨h1, v, hv, hvne, hi2v⟩
    obtain ⟨acc1, hv2⟩ := oneWayEntry_of_ne_sentinel _ _ _ _ _ _ hv hvne
    refine ⟨h1, acc1, ?_⟩
    rw [← hv2]
    exact hi2v.symm
  · rintro ⟨h1, acc1, hb1⟩
    exact ⟨h1, (i2 : ℤ), Or.inl ⟨acc1, hb1.symm⟩, by omega, rfl⟩
  · rintro j j' ⟨h1, v, hv, hvne, hjv⟩ ⟨h1', v', hv', hvne', hjv'⟩
    have := oneWayEntry_functional d cols max_ratio max_distance i1 v v' hv hv'
    omega

/-! ### Claim C10 -/

/-- C10: every pair emitted with cross-check enabled is also emitted with
cross-check disabled (on the same matrix and thresholds), so cross-check
only removes matches and never changes a surviving pair. -/
theorem C10_cross_check_subset (d : ℕ → ℕ → ℤ) (rows cols : ℕ)
    (max_ratio max_distance : ℝ) (i1 i2 : ℕ)
    (h : FindBestMatchesEmits d rows cols max_ratio max_distance true i1 i2) :
    FindBestMatchesEmits d rows cols max_ratio max_distance false i1 i2 := by
  obtain ⟨h1, v, hv, hvne, w, hw, hwne, hwi1, hi2v⟩ := h
  exact ⟨h1, v, hv, hvne, hi2v⟩

/-- The 1x1 matrix holding the maximal dot product passes all gates of
the one-way selector with max_ratio = 1 and max_distance = 1. -/
theorem rowAccepted_max_one_by_one :
    RowAccepted (fun _ => (262144 : ℤ)) 1 1 1 := by
  have hscan : rowScan (fun _ => (262144 : ℤ)) 1 = ⟨0, 262144, 0⟩ := by decide
  unfold RowAccepted
  rw [hscan]
  refine ⟨by decide, ?_, ?_⟩
  · show ¬ distNormed 262144 > 1
    rw [not_lt, distNormed_eq]
    norm_num
  · show ¬ distNormed 262144 ≥ 1 * distNormed 0
    rw [not_le, distNormed_zero, distNormed_eq]
    norm_num
    exact Real.pi_pos

/-- The cross-checked emission of pair (0, 0) on that 1x1 matrix. -/
theorem emits_max_one_by_one :
    FindBestMatchesEmits (fun _ _ => (262144 : ℤ)) 1 1 1 1 true 0 0 := by
  have hscan : rowScan (fun _ => (262144 : ℤ)) 1 = ⟨0, 262144, 0⟩ := by decide
  refine ⟨by omega, 0, Or.inl ⟨rowAccepted_max_one_by_one, ?_⟩, by omega,
    0, Or.inl ⟨rowAccepted_max_one_by_one, ?_⟩, by omega, rfl, rfl⟩
  · rw [hscan]
  · rw [hscan]

theorem C10_cross_check_subset_witness :
    FindBestMatchesEmits (fun _ _ => (262144 : ℤ)) 1 1 1 1 false 0 0 :=
  C10_cross_check_subset _ 1 1 1 1 0 0 emits_max_one_by_one

/-! ### Claim C6 -/

/-- C6: a pair whose distance-matrix entry is 0 is never emitted by
FindBestMatches (with or without cross-check), and a row all of whose
entries are 0 never passes the one-way gates, so guided-filter-rejected
pairs are never selected. -/
theorem C6_zero_entry_never_selected (d : ℕ → ℕ → ℤ) (rows cols : ℕ)
    (max_ratio max_distance : ℝ) (cross_check : Bool) (i1 i2 : ℕ) :
    (d i1 i2 = 0 →
      ¬ FindBestMatchesEmits d rows cols max_ratio max_distance cross_check
        i1 i2) ∧
    ((∀ k, k < cols → d i1 k = 0) →
      ¬ RowAccepted (d i1) cols max_ratio max_distance) := by
  constructor
  · intro h0 hemit
    have hsel : RowAccepted (d i1) cols max_ratio max_distance ∧
        (rowScan (d i1) cols).bestI2 = (i2 : ℤ) := by
      cases cross_check
      · obtain ⟨h1, v, hv, hvne, hi2v⟩ := hemit
        obtain ⟨acc, hv2⟩ := oneWayEntry_of_ne_sentinel _ _ _ _ _ _ hv hvne
        refine ⟨acc, ?_⟩
        rw [← hv2]
        exact hi2v.symm
      · obtain ⟨h1, v, hv, hvne, w, hw, hwne, hwi1, hi2v⟩ := hemit
        obtain ⟨acc, hv2⟩ := oneWayEntry_of_ne_sentinel _ _ _ _ _ _ hv hvne
        refine ⟨acc, ?_⟩
        rw [← hv2]
        exact hi2v.symm
    obtain ⟨acc, hbest⟩ := hsel
    rcases rowScan_invariant (d i1) cols with ⟨hs, _⟩ | ⟨j, hj, hb, hd, hpos⟩
    · exact acc.1 hs
    · have hji : j = i2 := by
        rw [hb] at hbest
        omega
      rw [hji, h0] at hpos
      omega
  · intro hz hacc
    rcases rowScan_invariant (d i1) cols with ⟨hs, _⟩ | ⟨j, hj, _, _, hpos⟩
    · exact hacc.1 hs
    · rw [hz j hj] at hpos
      omega

theorem C6_zero_entry_never_selected_witness :
    ¬ FindBestMatchesEmits (fun _ _ => (0 : ℤ)) 1 1 1 1 true 0 0 :=
  (C6_zero_entry_never_selected (fun _ _ => (0 : ℤ)) 1 1 1 1 true 0 0).1 rfl

/-! ### Claim C3 -/

/-- C3 counterexample: with max_ratio = 2 and max_distance = 4 the row
(1, 1) has best == second_best == 1 > 0, yet the row passes all gates of
the one-way selector: an equal best and second-best is only rejected when
max_ratio ≤ 1. -/
theorem C3_tie_counterexample :
    (rowScan (fun _ => (1 : ℤ)) 2).bestDist =
      (rowScan (fun _ => (1 : ℤ)) 2).secondDist ∧
    0 < (rowScan (fun _ => (1 : ℤ)) 2).bestDist ∧
    (0 : ℝ) < 2 ∧ (0 : ℝ) < 4 ∧
    RowAccepted (fun _ => (1 : ℤ)) 2 2 4 := by
  have hscan : rowScan (fun _ => (1 : ℤ)) 2 = ⟨0, 1, 1⟩ := by decide
  refine ⟨by decide, by decide, by norm_num, by norm_num, ?_⟩
  unfold RowAccepted
  rw [hscan]
  have hpos : 0 < distNormed 1 := by
    rw [distNormed_eq, Real.arccos_pos]
    norm_num
  refine ⟨by decide, ?_, ?_⟩
  · show ¬ distNormed 1 > 4
    rw [not_lt]
    have h1 := distNormed_le_pi 1
    have h2 := Real.pi_le_four
    linarith
  · show ¬ distNormed 1 ≥ 2 * distNormed 1
    rw [not_le]
    linarith

/-- C3 (amended): for max_ratio in (0, 1] and any max_distance, a row
whose best and second-best scan values are equal and positive is rejected
by the ratio gate, hence left unmatched. -/
theorem C3_tie_rejected (row : ℕ → ℤ) (cols : ℕ) (max_ratio max_distance : ℝ)
    (hmr0 : 0 < max_ratio) (hmr1 : max_ratio ≤ 1) (hmd : 0 < max_distance)
    (htie : (rowScan row cols).bestDist = (rowScan row cols).secondDist)
    (hpos : 0 < (rowScan row cols).bestDist) :
    ¬ RowAccepted row cols max_ratio max_distance := by
  rintro ⟨_, _, hratio⟩
  apply hratio
  rw [htie]
  exact mul_le_of_le_one_left
    (distNormed_nonneg (rowScan row cols).secondDist) hmr1

theorem C3_tie_rejected_witness :
    ¬ RowAccepted (fun _ => (1 : ℤ)) 2 (1 / 2) 1 :=
  C3_tie_rejected (fun _ => (1 : ℤ)) 2 (1 / 2) 1 (by norm_num) (by norm_num)
    (by norm_num) (by decide) (by decide)

/-! ### Claim C4 -/

/-- C4 counterexample: the single-row, single-column matrix holding 1 with
max_ratio = 1/2 and max_distance = 4 satisfies acos(V / 262144) ≤
max_distance, yet the selector leaves the row unmatched, because the
second-best value defaults to 0, whose angle is acos(0) = pi / 2, and the
ratio gate acos(1/262144) ≥ (1/2) * (pi/2) fires. -/
theorem C4_single_candidate_counterexample :
    Real.arccos ((1 : ℝ) / 262144) ≤ 4 ∧
    ¬ OneWaySel (fun _ k => if k = 0 then (1 : ℤ) else 0) 1 (1 / 2) 4 0 0 := by
  have hle : Real.arccos ((1 : ℝ) / 262144) ≤ 4 :=
    le_trans (Real.arccos_le_pi _) Real.pi_le_four
  refine ⟨hle, ?_⟩
  rintro ⟨⟨_, _, hratio⟩, _⟩
  apply hratio
  have hscan : rowScan ((fun _ k => if k = 0 then (1 : ℤ) else 0) 0) 1 =
      ⟨0, 1, 0⟩ := by decide
  rw [hscan]
  show distNormed 1 ≥ 1 / 2 * distNormed 0
  rw [distNormed_eq, distNormed_zero]
  have hq : ¬ (Real.arccos ((1 : ℝ) / 262144) ≤ Real.pi / 4) := by
    rw [Real.arccos_le_pi_div_four]
    intro hcon
    have h2 : (1 : ℝ) ≤ Real.sqrt 2 := by
      rw [show (1 : ℝ) = Real.sqrt 1 by rw [Real.sqrt_one]]
      exact Real.sqrt_le_sqrt (by norm_num)
    linarith
  push_neg at hq
  norm_num
  linarith

/-- C4 (amended): for a single-row matrix whose only positive column j
holds V, the selector matches row 0 to column j if and only if
acos(V / 262144) ≤ max_distance and additionally
acos(V / 262144) < max_ratio * acos(0): the second-best defaults to 0,
whose angle is acos(0) = pi/2, so the ratio gate is not trivially passed.
Any matched column is necessarily j. -/
theorem C4_single_candidate (d : ℕ → ℕ → ℤ) (cols j : ℕ) (V : ℤ)
    (max_ratio max_distance : ℝ) (hmr : 0 < max_ratio)
    (hmd : 0 < max_distance) (hj : j < cols) (hV : 0 < V) (hdj : d 0 j = V)
    (hz : ∀ k, k < cols → k ≠ j → d 0 k = 0) :
    (OneWaySel d cols max_ratio max_distance 0 j ↔
      (Real.arccos ((V : ℝ) / 262144) ≤ max_distance ∧
        Real.arccos ((V : ℝ) / 262144) < max_ratio * Real.arccos 0)) ∧
    (∀ i2, OneWaySel d cols max_ratio max_distance 0 i2 → i2 = j) := by
  have hscan : rowScan (d 0) cols = ⟨(j : ℤ), V, 0⟩ :=
    rowScan_single_positive (d 0) cols j V hj hV hdj hz
  constructor
  · unfold OneWaySel RowAccepted
    rw [hscan]
    constructor
    · rintro ⟨⟨_, hgate, hratio⟩, _⟩
      constructor
      · rw [← distNormed_eq]
        exact not_lt.mp hgate
      · rw [← distNormed_eq, Real.arccos_zero, ← distNormed_zero]
        exact not_le.mp hratio
    · rintro ⟨hle, hlt⟩
      refine ⟨⟨show (j : ℤ) ≠ -1 by omega, ?_, ?_⟩, rfl⟩
      · show ¬ distNormed V > max_distance
        rw [not_lt, distNormed_eq]
        exact hle
      · show ¬ distNormed V ≥ max_ratio * distNormed 0
        rw [not_le, distNormed_eq, distNormed_zero]
        rw [Real.arccos_zero] at hlt
        exact hlt
  · intro i2 hsel
    obtain ⟨_, hbest⟩ := hsel
    rw [hscan] at hbest
    have : (j : ℤ) = (i2 : ℤ) := hbest
    omega

theorem C4_single_candidate_witness :
    OneWaySel (fun _ _ => (262144 : ℤ)) 1 1 1 0 0 ↔
      (Real.arccos (((262144 : ℤ) : ℝ) / 262144) ≤ 1 ∧
        Real.arccos (((262144 : ℤ) : ℝ) / 262144) < 1 * Real.arccos 0) :=
  (C4_single_candidate (fun _ _ => (262144 : ℤ)) 1 0 262144 1 1
    (by norm_num) (by norm_num) (by norm_num) (by norm_num) rfl
    (fun k hk hne => absurd (by omega : k = 0) hne)).1

/-! ### Claim C5 -/

/-- C5 counterexample: there is no descriptor on which applying the
forward UBC reordering twice fails to restore the original; the claim
that such a descriptor exists is false. -/
theorem C5_not_involution_counterexample :
    ¬ ∃ d : FeatureDescriptor,
      TransformVLFeatToUBCFeatureDescriptors
        (TransformVLFeatToUBCFeatureDescriptors d) ≠ d := by
  rintro ⟨d, hd⟩
  apply hd
  funext m
  show d (ubcSourceIndex (ubcSourceIndex m)) = d m
  rw [ubcSourceIndex_involutive]

/-- C5 (amended): the per-cell index map is a bijection on 8 elements that
is its own inverse, so applying the forward UBC reordering twice returns
the original descriptor, for every descriptor. -/
theorem C5_transform_involutive :
    (∀ d : FeatureDescriptor,
      TransformVLFeatToUBCFeatureDescriptors
        (TransformVLFeatToUBCFeatureDescriptors d) = d) ∧
    (∀ k : Fin 8, qPerm (qPerm k) = k) ∧ Function.Bijective qPerm := by
  refine ⟨?_, by decide, ?_⟩
  · intro d
    funext m
    show d (ubcSourceIndex (ubcSourceIndex m)) = d m
    rw [ubcSourceIndex_involutive]
  · exact Function.Involutive.bijective (fun k => by revert k; decide)

/-! ### Claim C1 -/

/-- Element i of the list mapping g over the range 0, ..., n - 1. -/
theorem getD_map_range {α : Type} (g : ℕ → α) (dflt : α) (n i : ℕ)
    (h : i < n) :
    (List.map g (List.range n)).getD i dflt = g i := by
  rw [List.getD_eq_getElem (List.map g (List.range n)) dflt
    (by simpa using h)]
  simp

/-- Cell (i, j) of a matrix built by mapping a cell function over the two
index ranges. -/
theorem entryAt_map_range (g : ℕ → ℕ → ℤ) (n1 n2 i j : ℕ) (hi : i < n1)
    (hj : j < n2) :
    entryAt (List.map (fun a => List.map (g a) (List.range n2))
      (List.range n1)) i j = g i j := by
  unfold entryAt
  rw [getD_map_range _ _ _ _ hi, getD_map_range _ _ _ _ hj]

/-- Out-of-range cells of such a matrix read as 0. -/
theorem entryAt_map_range_out (g : ℕ → ℕ → ℤ) (n1 n2 i j : ℕ)
    (h : n1 ≤ i ∨ n2 ≤ j) :
    entryAt (List.map (fun a => List.map (g a) (List.range n2))
      (List.range n1)) i j = 0 := by
  unfold entryAt
  rcases Nat.lt_or_ge i n1 with hi | hi
  · rw [getD_map_range _ _ _ _ hi]
    rcases h with h | h
    · omega
    · exact List.getD_eq_default _ _ (by simpa using h)
  · rw [List.getD_eq_default
      (List.map (fun a => List.map (g a) (List.range n2)) (List.range n1))
      [] (by simpa using hi)]
    rfl

/-- Closed form of a distance-matrix cell under a supplied guided filter. -/
theorem entryAt_compute_some (keypoints1 keypoints2 : List FeatureKeypoint)
    (ds1 ds2 : List FeatureDescriptor) (f : GuidedFilter) (i j : ℕ)
    (hi : i < ds1.length) (hj : j < ds2.length) :
    entryAt (ComputeSiftDistanceMatrix keypoints1 keypoints2 ds1 ds2
      (some f)) i j =
      if f (keypoints1.getD i default).x (keypoints1.getD i default).y
          (keypoints2.getD j default).x (keypoints2.getD j default).y then
        0
      else
        (siftDescriptorDot (ds1.getD i default) (ds2.getD j default) : ℤ) :=
  entryAt_map_range
    (fun a b =>
      if f (keypoints1.getD a default).x (keypoints1.getD a default).y
          (keypoints2.getD b default).x (keypoints2.getD b default).y then
        (0 : ℤ)
      else
        (siftDescriptorDot (ds1.getD a default) (ds2.getD b default) : ℤ))
    ds1.length ds2.length i j hi hj

/-- Closed form of a distance-matrix cell with no guided filter. -/
theorem entryAt_compute_none (keypoints1 keypoints2 : List FeatureKeypoint)
    (ds1 ds2 : List FeatureDescriptor) (i j : ℕ)
    (hi : i < ds1.length) (hj : j < ds2.length) :
    entryAt (ComputeSiftDistanceMatrix keypoints1 keypoints2 ds1 ds2 none)
      i j =
      (siftDescriptorDot (ds1.getD i default) (ds2.getD j default) : ℤ) :=
  entryAt_map_range
    (fun a b =>
      (siftDescriptorDot (ds1.getD a default) (ds2.getD b default) : ℤ))
    ds1.length ds2.length i j hi hj

/-- C1: for every in-range cell (i, j) of the matrix built by
ComputeSiftDistanceMatrix, a supplied guided filter returning true on the
keypoint positions of the pair forces the stored entry to 0; a supplied
filter returning false, or no filter at all, stores the integer dot product
of quantized descriptor i of set 1 and quantized descriptor j of set 2. -/
theorem C1_distance_matrix_cells (keypoints1 keypoints2 : List FeatureKeypoint)
    (ds1 ds2 : List FeatureDescriptor) (f : GuidedFilter) (i j : ℕ)
    (hi : i < ds1.length) (hj : j < ds2.length) :
    (f (keypoints1.getD i default).x (keypoints1.getD i default).y
        (keypoints2.getD j default).x (keypoints2.getD j default).y = true →
      entryAt (ComputeSiftDistanceMatrix keypoints1 keypoints2 ds1 ds2
        (some f)) i j = 0) ∧
    (f (keypoints1.getD i default).x (keypoints1.getD i default).y
        (keypoints2.getD j default).x (keypoints2.getD j default).y = false →
      entryAt (ComputeSiftDistanceMatrix keypoints1 keypoints2 ds1 ds2
        (some f)) i j =
        (siftDescriptorDot (ds1.getD i default) (ds2.getD j default) : ℤ)) ∧
    (entryAt (ComputeSiftDistanceMatrix keypoints1 keypoints2 ds1 ds2 none)
        i j =
      (siftDescriptorDot (ds1.getD i default) (ds2.getD j default) : ℤ)) := by
  refine ⟨?_, ?_, entryAt_compute_none _ _ _ _ _ _ hi hj⟩
  · intro ht
    rw [entryAt_compute_some _ _ _ _ _ _ _ hi hj, if_pos ht]
  · intro hf
    rw [entryAt_compute_some _ _ _ _ _ _ _ hi hj,
      if_neg (by rw [hf]; exact Bool.false_ne_true)]

theorem C1_distance_matrix_cells_witness :
    entryAt (ComputeSiftDistanceMatrix [⟨0, 0⟩] [⟨0, 0⟩]
      [fun _ => (0 : Fin 256)] [fun _ => (0 : Fin 256)]
      (some (fun _ _ _ _ => false))) 0 0 =
      (siftDescriptorDot (fun _ => (0 : Fin 256)) (fun _ => (0 : Fin 256)) :
        ℤ) :=
  (C1_distance_matrix_cells [⟨0, 0⟩] [⟨0, 0⟩] [fun _ => (0 : Fin 256)]
    [fun _ => (0 : Fin 256)] (fun _ _ _ _ => false) 0 0 (by simp)
    (by simp)).2.1 rfl

/-! ### Claim C8 -/

/-- Twice the dot product is at most the sum of the squared norms
(pointwise AM-GM summed over the 128 coordinates). -/
theorem two_mul_dot_le_sqNorm_add (d1 d2 : FeatureDescriptor) :
    2 * siftDescriptorDot d1 d2 ≤
      siftDescriptorSqNorm d1 + siftDescriptorSqNorm d2 := by
  unfold siftDescriptorDot siftDescriptorSqNorm
  rw [Finset.mul_sum, ← Finset.sum_add_distrib]
  apply Finset.sum_le_sum
  intro k _
  zify
  nlinarith [sq_nonneg (((d1 k).val : ℤ) - ((d2 k).val : ℤ))]

/-- If the dot product attains the bound forced by the squared-norm
hypotheses, the two descriptors agree pointwise and both norms are
maximal. -/
theorem dot_eq_max_implies_eq (d1 d2 : FeatureDescriptor)
    (h1 : siftDescriptorSqNorm d1 ≤ 262144)
    (h2 : siftDescriptorSqNorm d2 ≤ 262144)
    (heq : siftDescriptorDot d1 d2 = 262144) :
    d1 = d2 ∧ siftDescriptorSqNorm d1 = 262144 ∧
      siftDescriptorSqNorm d2 = 262144 := by
  have hkey := two_mul_dot_le_sqNorm_add d1 d2
  have hn1 : siftDescriptorSqNorm d1 = 262144 := by omega
  have hn2 : siftDescriptorSqNorm d2 = 262144 := by omega
  refine ⟨?_, hn1, hn2⟩
  have hsum : ∑ k : Fin 128,
      (2 * ((d1 k).val * (d2 k).val)) =
      ∑ k : Fin 128, ((d1 k).val * (d1 k).val + (d2 k).val * (d2 k).val) := by
    have hl : ∑ k : Fin 128, (2 * ((d1 k).val * (d2 k).val)) =
        2 * siftDescriptorDot d1 d2 := by
      unfold siftDescriptorDot
      rw [Finset.mul_sum]
    have hr : ∑ k : Fin 128,
        ((d1 k).val * (d1 k).val + (d2 k).val * (d2 k).val) =
        siftDescriptorSqNorm d1 + siftDescriptorSqNorm d2 := by
      unfold siftDescriptorSqNorm
      rw [Finset.sum_add_distrib]
    rw [hl, hr]
    omega
  have hpt : ∀ k ∈ (Finset.univ : Finset (Fin 128)),
      2 * ((d1 k).val * (d2 k).val) =
        (d1 k).val * (d1 k).val + (d2 k).val * (d2 k).val := by
    intro k hk
    have hle : ∀ m ∈ (Finset.univ : Finset (Fin 128)),
        2 * ((d1 m).val * (d2 m).val) ≤
          (d1 m).val * (d1 m).val + (d2 m).val * (d2 m).val := by
      intro m _
      zify
      nlinarith [sq_nonneg (((d1 m).val : ℤ) - ((d2 m).val : ℤ))]
    exact (Finset.sum_eq_sum_iff_of_le hle).mp hsum k hk
  funext k
  have hk := hpt k (Finset.mem_univ k)
  have hZ : (2 : ℤ) * (((d1 k).val : ℤ) * ((d2 k).val : ℤ)) =
      ((d1 k).val : ℤ) * ((d1 k).val : ℤ) +
        ((d2 k).val : ℤ) * ((d2 k).val : ℤ) := by
    have hc := congrArg (fun n : ℕ => (n : ℤ)) hk
    push_cast at hc
    exact hc
  have hz : (((d1 k).val : ℤ) - ((d2 k).val : ℤ)) ^ 2 = 0 := by
    linear_combination -hZ
  have hv : ((d1 k).val : ℤ) - ((d2 k).val : ℤ) = 0 :=
    (pow_eq_zero_iff (by norm_num : (2 : ℕ) ≠ 0)).mp hz
  have hval : (d1 k).val = (d2 k).val := by omega
  exact Fin.val_injective hval

/-- C8 counterexample: two descriptor sets whose entries all lie in
[0, 255] (indeed all equal 255) produce a distance-matrix entry of
128 * 255 * 255 = 8323200, far above 262144: the byte range alone does not
bound the entries by 262144. -/
theorem C8_range_counterexample :
    entryAt (ComputeSiftDistanceMatrix [] [] [fun _ => (255 : Fin 256)]
      [fun _ => (255 : Fin 256)] none) 0 0 = 8323200 ∧
    ¬ (entryAt (ComputeSiftDistanceMatrix [] [] [fun _ => (255 : Fin 256)]
      [fun _ => (255 : Fin 256)] none) 0 0 ≤ 262144) := by
  have hdot : siftDescriptorDot (fun _ => (255 : Fin 256))
      (fun _ => (255 : Fin 256)) = 8323200 := by
    unfold siftDescriptorDot
    simp only [Finset.sum_const, Finset.card_univ, Fintype.card_fin,
      smul_eq_mul]
    decide
  have h : entryAt (ComputeSiftDistanceMatrix [] [] [fun _ => (255 : Fin 256)]
      [fun _ => (255 : Fin 256)] none) 0 0 = 8323200 := by
    rw [entryAt_compute_none [] [] _ _ 0 0 (by simp) (by simp)]
    simp [hdot]
  refine ⟨h, ?_⟩
  rw [h]
  omega

/-- C8 (amended): when additionally every descriptor of both sets has
squared L2 norm at most 512 * 512 = 262144 (the quantization-scale
invariant), every distance-matrix entry lies in [0, 262144]; and the dot
product attains 262144 only for two identical descriptors of maximal
norm. -/
theorem C8_entry_bounds (keypoints1 keypoints2 : List FeatureKeypoint)
    (ds1 ds2 : List FeatureDescriptor) (gf : Option GuidedFilter)
    (h1 : ∀ d ∈ ds1, siftDescriptorSqNorm d ≤ 262144)
    (h2 : ∀ d ∈ ds2, siftDescriptorSqNorm d ≤ 262144) (i j : ℕ) :
    (0 ≤ entryAt (ComputeSiftDistanceMatrix keypoints1 keypoints2 ds1 ds2 gf)
        i j ∧
      entryAt (ComputeSiftDistanceMatrix keypoints1 keypoints2 ds1 ds2 gf)
        i j ≤ 262144) ∧
    (∀ d1 d2 : FeatureDescriptor, siftDescriptorSqNorm d1 ≤ 262144 →
      siftDescriptorSqNorm d2 ≤ 262144 → siftDescriptorDot d1 d2 = 262144 →
      d1 = d2 ∧ siftDescriptorSqNorm d1 = 262144 ∧
        siftDescriptorSqNorm d2 = 262144) := by
  refine ⟨?_, dot_eq_max_implies_eq⟩
  have hnorm1 : siftDescriptorSqNorm (ds1.getD i default) ≤ 262144 := by
    rcases Nat.lt_or_ge i ds1.length with hlt | hge
    · exact h1 _ (by
        rw [List.getD_eq_getElem ds1 default hlt]
        exact List.getElem_mem hlt)
    · rw [List.getD_eq_default ds1 default hge]
      show siftDescriptorSqNorm (fun _ => (0 : Fin 256)) ≤ 262144
      unfold siftDescriptorSqNorm
      simp
  have hnorm2 : siftDescriptorSqNorm (ds2.getD j default) ≤ 262144 := by
    rcases Nat.lt_or_ge j ds2.length with hlt | hge
    · exact h2 _ (by
        rw [List.getD_eq_getElem ds2 default hlt]
        exact List.getElem_mem hlt)
    · rw [List.getD_eq_default ds2 default hge]
      show siftDescriptorSqNorm (fun _ => (0 : Fin 256)) ≤ 262144
      unfold siftDescriptorSqNorm
      simp
  have hdotle : siftDescriptorDot (ds1.getD i default) (ds2.getD j default) ≤
      262144 := by
    have := two_mul_dot_le_sqNorm_add (ds1.getD i default)
      (ds2.getD j default)
    omega
  rcases Nat.lt_or_ge i ds1.length with hi | hi
  · rcases Nat.lt_or_ge j ds2.length with hj | hj
    · cases gf with
      | none =>
          rw [entryAt_compute_none keypoints1 keypoints2 ds1 ds2 i j hi hj]
          constructor
          · exact_mod_cast Int.natCast_nonneg _
          · exact_mod_cast hdotle
      | some f =>
          rw [entryAt_compute_some keypoints1 keypoints2 ds1 ds2 f i j hi hj]
          by_cases hf : f (keypoints1.getD i default).x
              (keypoints1.getD i default).y (keypoints2.getD j default).x
              (keypoints2.getD j default).y = true
          · rw [if_pos hf]
            omega
          · rw [if_neg hf]
            constructor
            · exact_mod_cast Int.natCast_nonneg _
            · exact_mod_cast hdotle
    · have h0 : entryAt (ComputeSiftDistanceMatrix keypoints1 keypoints2
          ds1 ds2 gf) i j = 0 :=
        entryAt_map_range_out _ ds1.length ds2.length i j (Or.inr hj)
      rw [h0]
      omega
  · have h0 : entryAt (ComputeSiftDistanceMatrix keypoints1 keypoints2
        ds1 ds2 gf) i j = 0 :=
      entryAt_map_range_out _ ds1.length ds2.length i j (Or.inl hi)
    rw [h0]
    omega

/-- The constant descriptor with all entries 45 satisfies the squared-norm
hypothesis: 128 * 45 * 45 = 259200 ≤ 262144. -/
theorem sqNorm_const45_le :
    siftDescriptorSqNorm (fun _ => (45 : Fin 256)) ≤ 262144 := by
  unfold siftDescriptorSqNorm
  simp only [Finset.sum_const, Finset.card_univ, Fintype.card_fin,
    smul_eq_mul]
  decide

/-- Cell (0, 0) of the matrix of two singleton sets holding that
descriptor is its self dot product, 259200. -/
theorem entry_const45_eq :
    entryAt (ComputeSiftDistanceMatrix [] [] [fun _ => (45 : Fin 256)]
      [fun _ => (45 : Fin 256)] none) 0 0 = 259200 := by
  have hdot : siftDescriptorDot (fun _ => (45 : Fin 256))
      (fun _ => (45 : Fin 256)) = 259200 := by
    unfold siftDescriptorDot
    simp only [Finset.sum_const, Finset.card_univ, Fintype.card_fin,
      smul_eq_mul]
    decide
  rw [entryAt_compute_none [] [] _ _ 0 0 (by simp) (by simp)]
  simp [hdot]

theorem C8_entry_bounds_witness :
    siftDescriptorSqNorm (fun _ => (45 : Fin 256)) ≤ 262144 ∧
    entryAt (ComputeSiftDistanceMatrix [] [] [fun _ => (45 : Fin 256)]
      [fun _ => (45 : Fin 256)] none) 0 0 = 259200 ∧
    (0 ≤ entryAt (ComputeSiftDistanceMatrix [] [] [fun _ => (45 : Fin 256)]
        [fun _ => (45 : Fin 256)] none) 0 0 ∧
      entryAt (ComputeSiftDistanceMatrix [] [] [fun _ => (45 : Fin 256)]
        [fun _ => (45 : Fin 256)] none) 0 0 ≤ 262144) :=
  ⟨sqNorm_const45_le, entry_const45_eq,
    (C8_entry_bounds [] [] [fun _ => (45 : Fin 256)] [fun _ => (45 : Fin 256)]
      none
      (fun d hd => by
        rw [List.mem_singleton] at hd
        rw [hd]
        exact sqNorm_const45_le)
      (fun d hd => by
        rw [List.mem_singleton] at hd
        rw [hd]
        exact sqNorm_const45_le)
      0 0).1⟩

/-! ### Claim C9 -/

/-- C9: the epipolar guided filter built for the calibrated and
uncalibrated classifications returns true (reject) exactly when the
Sampson-like normalized residual of the spec, written out in scalar form,
strictly exceeds max_error squared. -/
theorem C9_epipolar_filter_spec (F : Mat3) (max_error : ℚ)
    (h : 0 < max_error) (x1 y1 x2 y2 : ℚ) :
    guidedFilterEpipolar F (max_error * max_error) x1 y1 x2 y2 = true ↔
      epipolarResidualSpec F x1 y1 x2 y2 > max_error ^ 2 := by
  unfold guidedFilterEpipolar epipolarResidualSpec
  simp only [decide_eq_true_eq]
  exact iff_of_eq (by congr 1 <;> [skip; ring] <;>
    simp only [mat3MulVec, mat3T, vec3Dot] <;> ring)

theorem C9_epipolar_filter_spec_witness :
    guidedFilterEpipolar ⟨1, 0, 0, 0, 1, 0, 0, 0, 1⟩ (1 * 1) 0 0 0 0 =
        true ↔
      epipolarResidualSpec ⟨1, 0, 0, 0, 1, 0, 0, 0, 1⟩ 0 0 0 0 > 1 ^ 2 :=
  C9_epipolar_filter_spec ⟨1, 0, 0, 0, 1, 0, 0, 0, 1⟩ 1 (by norm_num) 0 0 0 0

/-! ### Claim C7 -/

/-- C7: when the two-view model classification is none of the five handled
classifications, MatchGuidedSiftFeaturesCPU performs no matching and the
two-view geometry, in particular its guided (inlier) match list, is left
exactly as it was. -/
theorem C7_no_model_no_op (max_ratio max_distance : ℝ) (max_residual : ℚ)
    (cross_check : Bool) (keypoints1 keypoints2 : List FeatureKeypoint)
    (descriptors1 descriptors2 : List FeatureDescriptor)
    (tvg tvg2 : TwoViewGeometry)
    (h1 : tvg.config ≠ .calibrated) (h2 : tvg.config ≠ .uncalibrated)
    (h3 : tvg.config ≠ .planar) (h4 : tvg.config ≠ .panoramic)
    (h5 : tvg.config ≠ .planarOrPanoramic)
    (hstep : MatchGuidedSiftFeaturesCPUStep max_ratio max_distance
      max_residual cross_check keypoints1 keypoints2 descriptors1
      descriptors2 tvg tvg2) :
    tvg2 = tvg ∧ tvg2.inlier_matches = tvg.inlier_matches := by
  unfold MatchGuidedSiftFeaturesCPUStep at hstep
  cases hc : tvg.config with
  | calibrated => exact absurd hc h1
  | uncalibrated => exact absurd hc h2
  | planar => exact absurd hc h3
  | panoramic => exact absurd hc h4
  | planarOrPanoramic => exact absurd hc h5
  | noModel =>
      rw [hc] at hstep
      exact ⟨hstep, by rw [hstep]⟩

theorem C7_no_model_no_op_witness :
    (⟨.noModel, ⟨1, 0, 0, 0, 1, 0, 0, 0, 1⟩, ⟨1, 0, 0, 0, 1, 0, 0, 0, 1⟩,
        []⟩ : TwoViewGeometry) =
      ⟨.noModel, ⟨1, 0, 0, 0, 1, 0, 0, 0, 1⟩, ⟨1, 0, 0, 0, 1, 0, 0, 0, 1⟩,
        []⟩ ∧
    (⟨.noModel, ⟨1, 0, 0, 0, 1, 0, 0, 0, 1⟩, ⟨1, 0, 0, 0, 1, 0, 0, 0, 1⟩,
        []⟩ : TwoViewGeometry).inlier_matches =
      (⟨.noModel, ⟨1, 0, 0, 0, 1, 0, 0, 0, 1⟩, ⟨1, 0, 0, 0, 1, 0, 0, 0, 1⟩,
        []⟩ : TwoViewGeometry).inlier_matches :=
  C7_no_model_no_op 1 1 1 true [] [] [] []
    ⟨.noModel, ⟨1, 0, 0, 0, 1, 0, 0, 0, 1⟩, ⟨1, 0, 0, 0, 1, 0, 0, 0, 1⟩, []⟩
    ⟨.noModel, ⟨1, 0, 0, 0, 1, 0, 0, 0, 1⟩, ⟨1, 0, 0, 0, 1, 0, 0, 0, 1⟩, []⟩
    (by decide) (by decide) (by decide) (by decide) (by decide) rfl

end ColmapSift
